import Mathlib

/-!
Shallow embedding of the `cochainio/orm` repository: the bulk-insert engine
(`bulk_insert/bulk_insert.go`: `BulkInsert`, `insertObjSet`, `extractMapValue`),
and the transaction guard and pre-create hook (`orm.go`: `TX.End`, `TX.Commit`,
`beforeCreateCallback`).

Go maps from column name to value are modelled as association lists with
insert-or-replace semantics (`mapInsert`), which keeps keys distinct exactly as
a Go map does.  Go `interface{}` values bound as SQL parameters are modelled by
the inductive type `Value`; `time.Now()` at extraction time is passed in as an
explicit `now : Value`.  The external collaborator (gorm) is abstracted by
parameters: `toColumnName` for `gorm.ToColumnName`, `quotedTableName` for
`mainScope.QuotedTableName()`, and an `exec` oracle for `db.Exec`, which
returns `none` on success or `some errorMessage`.
-/

deriving instance DecidableEq for Except

namespace Orm

/-- A SQL-bindable value (models Go `interface{}` values stored in the
attribute map; `nil` models the zero interface value). -/
inductive Value where
  | nil : Value
  | str : String → Value
  | int : Int → Value
  | time : Nat → Value
deriving DecidableEq, Repr

/-- One struct field as seen through a gorm scope: `field.Struct.Name`,
`field.DBName`, the metadata flags consulted by `extractMapValue`, the
`DEFAULT` tag setting, and the current value `field.Field.Interface()`.
`hasRelationship` models `field.StructField.Relationship != nil`;
`hasForeignKey` models a present `FOREIGNKEY` tag setting. -/
structure Field where
  name : String
  dbName : String
  isPrimaryKey : Bool
  isIgnored : Bool
  hasRelationship : Bool
  hasForeignKey : Bool
  hasDefaultValue : Bool
  isBlank : Bool
  defaultTag : Option String
  value : Value
deriving DecidableEq, Repr

/-- A struct record: the field list produced by `(&gorm.Scope{Value: value}).Fields()`. -/
structure Record where
  fields : List Field
deriving DecidableEq, Repr

/-- A Go value handed to `extractMapValue`: either a struct or something of
another reflect kind. -/
inductive GoValue where
  | struct : Record → GoValue
  | nonStruct : GoValue
deriving DecidableEq, Repr

/-- Go-map insertion `attrs[k] = v`: replaces the binding when the key is
present, appends it otherwise.  Keys therefore stay distinct. -/
def mapInsert (m : List (String × Value)) (k : String) (v : Value) : List (String × Value) :=
  if m.any (fun p => p.1 == k) then
    m.map (fun p => if p.1 == k then (k, v) else p)
  else
    m ++ [(k, v)]

/-- Go-map lookup `m[k]`: the bound value, or the zero interface value (`nil`)
when the key is absent. -/
def mapLookup (m : List (String × Value)) (k : String) : Value :=
  match m.find? (fun p => p.1 == k) with
  | some p => p.2
  | none => Value.nil

/-- Modelled from the spec: the helper `containString` is referenced by
`extractMapValue` but its definition (the repository's util file) is not among
the provided sources; per the spec's exclusion rule "its name is in
`excludedColumns`" it is plain list membership. -/
def containString (ss : List String) (s : String) : Bool :=
  ss.contains s

/-- Byte-wise lexicographic comparison of char lists (code-point order, which
agrees with Go's byte order on UTF-8 strings). -/
def charListLe : List Char → List Char → Bool
  | [], _ => true
  | _ :: _, [] => false
  | a :: as, b :: bs =>
    if a.toNat < b.toNat then true
    else if b.toNat < a.toNat then false
    else charListLe as bs

/-- Lexicographic order on strings, the order used by Go's `sort.Strings`. -/
def strLe (a b : String) : Bool :=
  charListLe a.data b.data

/-- `strLe` as a decidable relation, for use with `List.insertionSort`. -/
def strLeP (a b : String) : Prop :=
  strLe a b = true

instance : DecidableRel strLeP :=
  fun a b => inferInstanceAs (Decidable (strLe a b = true))

/-- Modelled from the spec: the helper `sortedKeys` is referenced by
`insertObjSet` but its definition (the repository's util file) is not among the
provided sources; per the spec, the keys of the mapping are sorted
lexicographically. -/
def sortedKeys (m : List (String × Value)) : List String :=
  List.insertionSort strLeP (m.map Prod.fst)

/-- The body of the field-traversal loop of `extractMapValue` (bulk_insert.go):
a field is skipped when its struct name is excluded, it carries a relationship
or foreign key, it is ignored, or it is the primary key stored in column `id`;
kept fields contribute their DB column name bound to the current time (for
`CreatedAt`/`UpdatedAt`), the declared default when blank with a default, or
the field's own value. -/
def extractStep (excludeColumns : List String) (now : Value)
    (attrs : List (String × Value)) (field : Field) : List (String × Value) :=
  if !containString excludeColumns field.name && !field.hasRelationship &&
      !field.hasForeignKey && !field.isIgnored &&
      !(field.dbName == "id" && field.isPrimaryKey) then
    if field.name == "CreatedAt" || field.name == "UpdatedAt" then
      mapInsert attrs field.dbName now
    else if field.hasDefaultValue && field.isBlank then
      match field.defaultTag with
      | some val => mapInsert attrs field.dbName (Value.str val)
      | none => mapInsert attrs field.dbName field.value
    else
      mapInsert attrs field.dbName field.value
  else attrs

/-- The field-traversal loop of `extractMapValue`, starting from the empty
attribute map `var attrs = map[string]interface{}{}`. -/
def extractAttrs (fields : List Field) (excludeColumns : List String) (now : Value) :
    List (String × Value) :=
  fields.foldl (extractStep excludeColumns now) []

/-- `extractMapValue` (bulk_insert.go): fails with "value must be kind of
Struct" on a non-struct, otherwise returns the attribute map built by the
field loop. -/
def extractMapValue (value : GoValue) (excludeColumns : List String) (now : Value) :
    Except String (List (String × Value)) :=
  match value with
  | GoValue.nonStruct => Except.error "value must be kind of Struct"
  | GoValue.struct r => Except.ok (extractAttrs r.fields excludeColumns now)

/-- The per-object loop of `insertObjSet`: for each object extract its
attribute map, fail on extraction error, fail with "attribute sizes are
inconsistent" when the map size differs from the first object's, and otherwise
emit one `(?, ..., ?)` placeholder group and that object's values in
sorted-key order. -/
def buildRows (excludeColumns : List String) (now : Value) (attrSize : Nat) :
    List GoValue → Except String (List String × List Value)
  | [] => Except.ok ([], [])
  | obj :: rest =>
    match extractMapValue obj excludeColumns now with
    | Except.error e => Except.error e
    | Except.ok objAttrs =>
      if objAttrs.length ≠ attrSize then
        Except.error "attribute sizes are inconsistent"
      else
        match buildRows excludeColumns now attrSize rest with
        | Except.error e => Except.error e
        | Except.ok (phs, vars) =>
          Except.ok (("(" ++ String.intercalate ", "
              ((sortedKeys objAttrs).map (fun _ => "?")) ++ ")") :: phs,
            (sortedKeys objAttrs).map (mapLookup objAttrs) ++ vars)

/-- `insertObjSet` (bulk_insert.go): on an empty chunk does nothing; otherwise
derives the column list from the first object's attribute map (keys sorted,
then translated by `gorm.ToColumnName`), runs the per-object loop, and forms
the `INSERT`/`REPLACE` statement together with the flat parameter list.
Returns `none` when no statement is executed, `some (sql, vars)` for the
statement handed to `db.Exec`. -/
def insertObjSet (toColumnName : String → String) (quotedTableName : String)
    (objects : List GoValue) (replace : Bool) (excludeColumns : List String) (now : Value) :
    Except String (Option (String × List Value)) :=
  match objects with
  | [] => Except.ok none
  | first :: rest =>
    match extractMapValue first excludeColumns now with
    | Except.error e => Except.error e
    | Except.ok firstAttrs =>
      match buildRows excludeColumns now firstAttrs.length (first :: rest) with
      | Except.error e => Except.error e
      | Except.ok (placeholders, vars) =>
        Except.ok (some ((if replace then "REPLACE" else "INSERT") ++ " INTO " ++
          quotedTableName ++ " (" ++
          String.intercalate ", " ((sortedKeys firstAttrs).map toColumnName) ++
          ") VALUES " ++ String.intercalate ", " placeholders, vars))

/-- Modelled from the spec: the helper `splitObjects` is referenced by
`BulkInsert` but its definition (the repository's util file) is not among the
provided sources; per the spec, the input is partitioned into contiguous
chunks of at most `size` records that together contain every record exactly
once in order.  `splitChunks` is the worker loop: `cap` is the remaining
capacity of the chunk being accumulated in reverse in `cur`. -/
def splitChunks {α : Type} (size : Nat) : List α → Nat → List α → List (List α)
  | [], _, cur => if cur.isEmpty then [] else [cur.reverse]
  | x :: xs, cap, cur =>
    if cap ≤ 1 then (x :: cur).reverse :: splitChunks size xs size []
    else splitChunks size xs (cap - 1) (x :: cur)

/-- Modelled from the spec: entry point of the chunking helper; a zero chunk
size degenerates to a single chunk. -/
def splitObjects {α : Type} (objArr : List α) (size : Nat) : List (List α) :=
  match size with
  | 0 => match objArr with | [] => [] | _ => [objArr]
  | Nat.succ k => splitChunks (Nat.succ k) objArr (Nat.succ k) []

/-- The chunk loop of `BulkInsert`: runs `insertObjSet` on each chunk in
order; an extraction/consistency error stops processing with no execution for
that chunk, an execution error (from the `exec` oracle) stops processing after
the failing statement was sent.  Returns the list of executed statements in
order and the terminal error, if any. -/
def runBulk (toColumnName : String → String) (quotedTableName : String)
    (exec : String → List Value → Option String)
    (replace : Bool) (excludeColumns : List String) (now : Value) :
    List (List GoValue) → List (String × List Value) × Option String
  | [] => ([], none)
  | chunk :: rest =>
    match insertObjSet toColumnName quotedTableName chunk replace excludeColumns now with
    | Except.error e => ([], some e)
    | Except.ok none => runBulk toColumnName quotedTableName exec replace excludeColumns now rest
    | Except.ok (some stmt) =>
      match exec stmt.1 stmt.2 with
      | some e => ([stmt], some e)
      | none =>
        let r := runBulk toColumnName quotedTableName exec replace excludeColumns now rest
        (stmt :: r.1, r.2)

/-- A Go value handed to `BulkInsert`: a slice of records, or a value of some
other reflect kind. -/
inductive GoInput where
  | slice : List GoValue → GoInput
  | nonSlice : GoInput

/-- `BulkInsert` (bulk_insert.go): rejects non-slices, splits the records into
chunks of `chunkSize`, and runs the chunk loop. -/
def BulkInsert (toColumnName : String → String) (quotedTableName : String)
    (exec : String → List Value → Option String)
    (input : GoInput) (chunkSize : Nat) (replace : Bool) (excludeColumns : List String)
    (now : Value) : List (String × List Value) × Option String :=
  match input with
  | GoInput.nonSlice => ([], some "objects must be a slice")
  | GoInput.slice objects =>
    runBulk toColumnName quotedTableName exec replace excludeColumns now
      (splitObjects objects chunkSize)

/-- The transaction guard (orm.go `TX`): `committed` is the struct field,
`rollbacks` counts the `tx.Rollback()` calls issued to the underlying session,
and `dbError` models the session's terminal error field `tx.DB.Error` as
observed after the commit attempt. -/
structure TX where
  committed : Bool
  rollbacks : Nat
  dbError : Option String
deriving DecidableEq, Repr

/-- `DB.Begin` (orm.go): a fresh guard, not committed, no rollback issued. -/
def beginTX (dbError : Option String) : TX :=
  { committed := false, rollbacks := 0, dbError := dbError }

/-- `TX.End` (orm.go): issues a rollback to the session whenever the guard is
not marked committed. -/
def TX.End (tx : TX) : TX :=
  if !tx.committed then { tx with rollbacks := tx.rollbacks + 1 } else tx

/-- The observable outcome of `TX.Commit`: normal return of `nil`, normal
return of an error (the `noPanic` path), or a runtime panic. -/
inductive CommitOutcome where
  | ok : CommitOutcome
  | err : String → CommitOutcome
  | fatal : String → CommitOutcome
deriving DecidableEq, Repr

/-- `TX.Commit` (orm.go): issues the commit, then inspects the session error.
On an error it returns it when `len(noPanic) > 0 && noPanic[0]`, else panics;
only on success does it set `committed`. -/
def TX.Commit (tx : TX) (noPanic : List Bool) : TX × CommitOutcome :=
  match tx.dbError with
  | some e =>
    if (match noPanic with | b :: _ => b | [] => false) then
      (tx, CommitOutcome.err e)
    else
      (tx, CommitOutcome.fatal e)
  | none => ({ tx with committed := true }, CommitOutcome.ok)

/-- The primary field of a create scope (`scope.PrimaryField()`): its struct
name, DB column name and blankness. -/
structure PrimaryField where
  name : String
  dbName : String
  isBlank : Bool
deriving DecidableEq, Repr

/-- The per-record create scope seen by the pre-create hook: resolved table
name, the primary field when one is declared, and the record's column values
(mutated by `scope.SetColumn`). -/
structure CreateScope where
  tableName : String
  primaryField : Option PrimaryField
  columns : List (String × Value)
deriving DecidableEq, Repr

/-- `scope.SetColumn(k, v)`. -/
def CreateScope.setColumn (scope : CreateScope) (k : String) (v : Value) : CreateScope :=
  { scope with columns := mapInsert scope.columns k v }

/-- `scope.HasColumn(k)`. -/
def CreateScope.hasColumn (scope : CreateScope) (k : String) : Bool :=
  scope.columns.any (fun p => p.1 == k)

/-- The pre-create hook `beforeCreateCallback` (orm.go, blank-check variant):
on a table whose name does not end in "deleted", assigns a fresh identifier to
column "ID" when the scope has a primary field named "ID" (by struct name or
DB name) that is currently blank; on a "deleted"-suffixed table, stamps column
"At" with the current time when present. -/
def beforeCreateCallback (freshId : String) (now : Value) (scope : CreateScope) : CreateScope :=
  if !(scope.tableName.endsWith "deleted") then
    match scope.primaryField with
    | some pf =>
      if (pf.name == "ID" || pf.dbName == "ID") && pf.isBlank then
        scope.setColumn "ID" (Value.str freshId)
      else scope
    | none => scope
  else
    if scope.hasColumn "At" then scope.setColumn "At" now else scope

/-- The key list of an attribute map. -/
def mapKeys (m : List (String × Value)) : List String :=
  m.map Prod.fst

/-- The drop condition of claim C2, worded from the spec: a field is dropped
when its name is in the excluded set, it represents a relationship or foreign
key, it is marked ignored, or it is the primary-key column (`id`) and is
flagged as primary. -/
def droppedField (excludeColumns : List String) (f : Field) : Bool :=
  excludeColumns.contains f.name || f.hasRelationship || f.hasForeignKey ||
    f.isIgnored || (f.dbName == "id" && f.isPrimaryKey)

/-- The value bound for a kept field: the current time for timestamp fields,
the declared default (or the blank value) for blank fields with a default,
else the field's own value. -/
def fieldValue (now : Value) (f : Field) : Value :=
  if f.name == "CreatedAt" || f.name == "UpdatedAt" then now
  else if f.hasDefaultValue && f.isBlank then
    match f.defaultTag with
    | some val => Value.str val
    | none => f.value
  else f.value

/-- One parenthesized placeholder group with `c` question marks, exactly as
`insertObjSet` renders it. -/
def placeholderGroup (c : Nat) : String :=
  "(" ++ String.intercalate ", " (List.replicate c "?") ++ ")"

/-- The attribute map extracted for one object (`[]` when extraction fails). -/
def extractedAttrs (excludeColumns : List String) (now : Value) (o : GoValue) :
    List (String × Value) :=
  match extractMapValue o excludeColumns now with
  | Except.ok m => m
  | Except.error _ => []

/-- The parameter values contributed by one object, in that object's own
sorted-key order, exactly as the loop of `insertObjSet` appends them. -/
def extractedRow (excludeColumns : List String) (now : Value) (o : GoValue) : List Value :=
  (sortedKeys (extractedAttrs excludeColumns now o)).map
    (mapLookup (extractedAttrs excludeColumns now o))

/-- Two fields of the same shape: identical names and identical metadata
flags, so that extraction keeps or drops them identically and under the same
column name; only the bound value (and its blankness/default data) may
differ.  A batch of records of one Go struct type is pairwise shape-equal. -/
def FieldShapeEq (f g : Field) : Prop :=
  f.name = g.name ∧ f.dbName = g.dbName ∧ f.isPrimaryKey = g.isPrimaryKey ∧
    f.isIgnored = g.isIgnored ∧ f.hasRelationship = g.hasRelationship ∧
    f.hasForeignKey = g.hasForeignKey

/-- A plain integer column for concrete test records: no metadata flags set. -/
def intField (nm : String) (v : Int) : Field :=
  { name := nm, dbName := nm, isPrimaryKey := false, isIgnored := false,
    hasRelationship := false, hasForeignKey := false, hasDefaultValue := false,
    isBlank := false, defaultTag := none, value := Value.int v }

/-- A concrete record made of plain integer columns. -/
def sampleFields (ks : List (String × Int)) : Record :=
  { fields := ks.map (fun p => intField p.1 p.2) }

/-- A concrete struct record made of plain integer columns. -/
def sampleRecord (ks : List (String × Int)) : GoValue :=
  GoValue.struct (sampleFields ks)

/-- A record exercising every exclusion rule at once: an excluded name, a
relationship, a foreign key, an ignored field, the `id` primary key, a plain
kept column, a creation timestamp and a blank column with a declared
default. -/
def mixedRecord : Record :=
  { fields := [
      { name := "Skip", dbName := "skip", isPrimaryKey := false, isIgnored := false,
        hasRelationship := false, hasForeignKey := false, hasDefaultValue := false,
        isBlank := false, defaultTag := none, value := Value.int 1 },
      { name := "Rel", dbName := "rel", isPrimaryKey := false, isIgnored := false,
        hasRelationship := true, hasForeignKey := false, hasDefaultValue := false,
        isBlank := false, defaultTag := none, value := Value.int 2 },
      { name := "Fk", dbName := "fk", isPrimaryKey := false, isIgnored := false,
        hasRelationship := false, hasForeignKey := true, hasDefaultValue := false,
        isBlank := false, defaultTag := none, value := Value.int 3 },
      { name := "Ign", dbName := "ign", isPrimaryKey := false, isIgnored := true,
        hasRelationship := false, hasForeignKey := false, hasDefaultValue := false,
        isBlank := false, defaultTag := none, value := Value.int 4 },
      { name := "ID", dbName := "id", isPrimaryKey := true, isIgnored := false,
        hasRelationship := false, hasForeignKey := false, hasDefaultValue := false,
        isBlank := false, defaultTag := none, value := Value.str "pk" },
      { name := "A", dbName := "a", isPrimaryKey := false, isIgnored := false,
        hasRelationship := false, hasForeignKey := false, hasDefaultValue := false,
        isBlank := false, defaultTag := none, value := Value.int 5 },
      { name := "CreatedAt", dbName := "created_at", isPrimaryKey := false,
        isIgnored := false, hasRelationship := false, hasForeignKey := false,
        hasDefaultValue := false, isBlank := false, defaultTag := none,
        value := Value.time 0 },
      { name := "D", dbName := "d", isPrimaryKey := false, isIgnored := false,
        hasRelationship := false, hasForeignKey := false, hasDefaultValue := true,
        isBlank := true, defaultTag := some "7", value := Value.int 0 }] }

/-- A create scope for a live table whose primary key is the conventional
blank `ID` field. -/
def idPkScope : CreateScope :=
  { tableName := "user",
    primaryField := some { name := "ID", dbName := "ID", isBlank := true },
    columns := [] }

/-- A create scope for a live table whose primary key is blank but named
neither `ID` nor stored under DB name `ID`. -/
def nonIdPkScope : CreateScope :=
  { tableName := "user",
    primaryField := some { name := "Code", dbName := "code", isBlank := true },
    columns := [] }

/-- A create scope for a live table whose `ID` primary key is already set
(non-blank). -/
def presetPkScope : CreateScope :=
  { tableName := "user",
    primaryField := some { name := "ID", dbName := "ID", isBlank := false },
    columns := [] }

/-- Five one-column records, for the chunking scenario of claim C5. -/
def fiveRecords : List GoValue :=
  [sampleRecord [("v", 1)], sampleRecord [("v", 2)], sampleRecord [("v", 3)],
    sampleRecord [("v", 4)], sampleRecord [("v", 5)]]

theorem charListLe_total : ∀ a b : List Char, charListLe a b = true ∨ charListLe b a = true
  | [], _ => Or.inl rfl
  | _ :: _, [] => Or.inr rfl
  | a :: as, b :: bs => by
    by_cases h1 : a.toNat < b.toNat
    · left; simp [charListLe, h1]
    · by_cases h2 : b.toNat < a.toNat
      · right; simp [charListLe, h2]
      · rcases charListLe_total as bs with h | h
        · left; simp [charListLe, h1, h2, h]
        · right; simp [charListLe, h1, h2, h]

theorem charListLe_trans : ∀ a b c : List Char,
    charListLe a b = true → charListLe b c = true → charListLe a c = true
  | [], _, _, _, _ => rfl
  | _ :: _, [], _, h1, _ => by simp [charListLe] at h1
  | _ :: _, _ :: _, [], _, h2 => by simp [charListLe] at h2
  | a :: as, b :: bs, c :: cs, h1, h2 => by
    simp only [charListLe] at h1 h2 ⊢
    by_cases hab : a.toNat < b.toNat
    · by_cases hbc : b.toNat < c.toNat
      · simp [show a.toNat < c.toNat by omega]
      · by_cases hcb : c.toNat < b.toNat
        · simp [hbc, hcb] at h2
        · simp [show a.toNat < c.toNat by omega]
    · by_cases hba : b.toNat < a.toNat
      · simp [hab, hba] at h1
      · by_cases hbc : b.toNat < c.toNat
        · simp [show a.toNat < c.toNat by omega]
        · by_cases hcb : c.toNat < b.toNat
          · simp [hbc, hcb] at h2
          · simp only [hab, hba, hbc, hcb, if_false] at h1 h2
            simp only [show ¬a.toNat < c.toNat by omega, show ¬c.toNat < a.toNat by omega,
              if_false]
            exact charListLe_trans as bs cs h1 h2

theorem charListLe_antisymm : ∀ a b : List Char,
    charListLe a b = true → charListLe b a = true → a = b
  | [], [], _, _ => rfl
  | [], _ :: _, _, h2 => by simp [charListLe] at h2
  | _ :: _, [], h1, _ => by simp [charListLe] at h1
  | a :: as, b :: bs, h1, h2 => by
    simp only [charListLe] at h1 h2
    by_cases hab : a.toNat < b.toNat
    · simp [show ¬b.toNat < a.toNat by omega, hab] at h2
    · by_cases hba : b.toNat < a.toNat
      · simp [hab, hba] at h1
      · have hv : a = b := by
          apply Char.ext; apply UInt32.ext
          have hn : a.toNat = b.toNat := by omega
          simpa [Char.toNat, UInt32.toNat] using hn
        simp only [hab, hba, if_false] at h1 h2
        rw [hv, charListLe_antisymm as bs h1 h2]

instance : IsTotal String strLeP :=
  ⟨fun a b => charListLe_total a.data b.data⟩

instance : IsTrans String strLeP :=
  ⟨fun a b c h1 h2 => charListLe_trans a.data b.data c.data h1 h2⟩

instance : IsAntisymm String strLeP :=
  ⟨fun a b h1 h2 => String.ext (charListLe_antisymm a.data b.data h1 h2)⟩

theorem sortedKeys_perm (m : List (String × Value)) : (sortedKeys m).Perm (mapKeys m) :=
  List.perm_insertionSort strLeP (m.map Prod.fst)

theorem sortedKeys_length (m : List (String × Value)) : (sortedKeys m).length = m.length := by
  have h := (sortedKeys_perm m).length_eq
  simpa [mapKeys] using h

theorem sortedKeys_sorted (m : List (String × Value)) : List.Sorted strLeP (sortedKeys m) :=
  List.sorted_insertionSort strLeP (m.map Prod.fst)

theorem sortedKeys_mem (m : List (String × Value)) (k : String) :
    k ∈ sortedKeys m ↔ k ∈ mapKeys m :=
  (sortedKeys_perm m).mem_iff

theorem sortedKeys_eq_of_same_keys (m₁ m₂ : List (String × Value))
    (h₁ : (mapKeys m₁).Nodup) (h₂ : (mapKeys m₂).Nodup)
    (h : ∀ k, k ∈ mapKeys m₁ ↔ k ∈ mapKeys m₂) : sortedKeys m₁ = sortedKeys m₂ := by
  refine List.eq_of_perm_of_sorted ?_ (sortedKeys_sorted m₁) (sortedKeys_sorted m₂)
  refine ((sortedKeys_perm m₁).trans ?_).trans (sortedKeys_perm m₂).symm
  exact (List.perm_ext_iff_of_nodup h₁ h₂).mpr h

theorem any_key_iff (m : List (String × Value)) (k : String) :
    (m.any fun p => p.1 == k) = true ↔ k ∈ mapKeys m := by
  simp [mapKeys, List.any_eq_true, List.mem_map]

theorem mapKeys_mapInsert (m : List (String × Value)) (k : String) (v : Value) :
    mapKeys (mapInsert m k v) = if k ∈ mapKeys m then mapKeys m else mapKeys m ++ [k] := by
  unfold mapInsert
  by_cases h : (m.any fun p => p.1 == k) = true
  · rw [if_pos h, if_pos ((any_key_iff m k).mp h)]
    unfold mapKeys
    rw [List.map_map]
    apply List.map_congr_left
    intro p _
    by_cases hp : p.1 = k
    · simp [hp]
    · simp [hp]
  · rw [if_neg h, if_neg (fun hc => h ((any_key_iff m k).mpr hc))]
    simp [mapKeys]

theorem mem_mapKeys_mapInsert_self (m : List (String × Value)) (k : String) (v : Value) :
    k ∈ mapKeys (mapInsert m k v) := by
  rw [mapKeys_mapInsert]
  by_cases h : k ∈ mapKeys m
  · rwa [if_pos h]
  · rw [if_neg h]; simp

theorem mem_mapKeys_mapInsert_of_mem (m : List (String × Value)) (k j : String) (v : Value)
    (h : j ∈ mapKeys m) : j ∈ mapKeys (mapInsert m k v) := by
  rw [mapKeys_mapInsert]
  by_cases hk : k ∈ mapKeys m
  · rwa [if_pos hk]
  · rw [if_neg hk]; exact List.mem_append_left _ h

theorem mem_mapKeys_mapInsert_elim (m : List (String × Value)) (k j : String) (v : Value)
    (h : j ∈ mapKeys (mapInsert m k v)) : j ∈ mapKeys m ∨ j = k := by
  rw [mapKeys_mapInsert] at h
  by_cases hk : k ∈ mapKeys m
  · rw [if_pos hk] at h; exact Or.inl h
  · rw [if_neg hk] at h
    rcases List.mem_append.mp h with h | h
    · exact Or.inl h
    · simp at h; exact Or.inr h

theorem mapKeys_nodup_mapInsert (m : List (String × Value)) (k : String) (v : Value)
    (h : (mapKeys m).Nodup) : (mapKeys (mapInsert m k v)).Nodup := by
  rw [mapKeys_mapInsert]
  by_cases hk : k ∈ mapKeys m
  · rwa [if_pos hk]
  · rw [if_neg hk]
    simp [List.nodup_append, h, hk]

theorem guard_eq_droppedField (excl : List String) (f : Field) :
    (!containString excl f.name && !f.hasRelationship && !f.hasForeignKey &&
      !f.isIgnored && !(f.dbName == "id" && f.isPrimaryKey)) = !droppedField excl f := by
  simp [droppedField, containString, Bool.not_or, Bool.and_assoc]

theorem extractStep_dropped (excl : List String) (now : Value)
    (attrs : List (String × Value)) (f : Field) (h : droppedField excl f = true) :
    extractStep excl now attrs f = attrs := by
  unfold extractStep
  rw [guard_eq_droppedField, h]
  rfl

theorem extractStep_kept (excl : List String) (now : Value)
    (attrs : List (String × Value)) (f : Field) (h : droppedField excl f = false) :
    extractStep excl now attrs f = mapInsert attrs f.dbName (fieldValue now f) := by
  unfold extractStep fieldValue
  rw [guard_eq_droppedField, h]
  simp only [Bool.not_false, if_true]
  by_cases h1 : (f.name == "CreatedAt" || f.name == "UpdatedAt") = true
  · rw [if_pos h1, if_pos h1]
  · rw [if_neg h1, if_neg h1]
    by_cases h2 : (f.hasDefaultValue && f.isBlank) = true
    · rw [if_pos h2, if_pos h2]
      cases f.defaultTag <;> rfl
    · rw [if_neg h2, if_neg h2]

theorem extractAttrs_filter (fields : List Field) (excl : List String) (now : Value) :
    extractAttrs fields excl now =
      (fields.filter fun f => !droppedField excl f).foldl
        (fun attrs f => mapInsert attrs f.dbName (fieldValue now f)) [] := by
  show List.foldl (extractStep excl now) [] fields = _
  suffices h : ∀ acc : List (String × Value),
      fields.foldl (extractStep excl now) acc =
        (fields.filter fun f => !droppedField excl f).foldl
          (fun attrs f => mapInsert attrs f.dbName (fieldValue now f)) acc from h []
  induction fields with
  | nil => intro acc; rfl
  | cons f fs ih =>
    intro acc
    by_cases hf : droppedField excl f = true
    · rw [List.foldl_cons, extractStep_dropped excl now acc f hf, List.filter_cons,
        if_neg (by simp [hf])]
      exact ih acc
    · have hf2 : droppedField excl f = false := by
        revert hf; cases droppedField excl f <;> simp
      rw [List.foldl_cons, extractStep_kept excl now acc f hf2, List.filter_cons,
        if_pos (by simp [hf2]), List.foldl_cons]
      exact ih _

theorem extractFold_keys_nodup (fields : List Field) (excl : List String) (now : Value) :
    ∀ acc : List (String × Value), (mapKeys acc).Nodup →
      (mapKeys (fields.foldl (extractStep excl now) acc)).Nodup := by
  induction fields with
  | nil => intro acc h; exact h
  | cons f fs ih =>
    intro acc h
    rw [List.foldl_cons]
    apply ih
    by_cases hf : droppedField excl f = true
    · rwa [extractStep_dropped excl now acc f hf]
    · have hf2 : droppedField excl f = false := by
        revert hf; cases droppedField excl f <;> simp
      rw [extractStep_kept excl now acc f hf2]
      exact mapKeys_nodup_mapInsert acc f.dbName _ h

theorem extractAttrs_keys_nodup (fields : List Field) (excl : List String) (now : Value) :
    (mapKeys (extractAttrs fields excl now)).Nodup :=
  extractFold_keys_nodup fields excl now [] (by simp [mapKeys])

theorem extractFold_keys_mono (fields : List Field) (excl : List String) (now : Value) :
    ∀ acc : List (String × Value), ∀ j, j ∈ mapKeys acc →
      j ∈ mapKeys (fields.foldl (extractStep excl now) acc) := by
  induction fields with
  | nil => intro acc j h; exact h
  | cons f fs ih =>
    intro acc j h
    rw [List.foldl_cons]
    apply ih
    by_cases hf : droppedField excl f = true
    · rwa [extractStep_dropped excl now acc f hf]
    · have hf2 : droppedField excl f = false := by
        revert hf; cases droppedField excl f <;> simp
      rw [extractStep_kept excl now acc f hf2]
      exact mem_mapKeys_mapInsert_of_mem acc f.dbName j _ h

theorem extractAttrs_mem_keys (fields : List Field) (excl : List String) (now : Value)
    (f : Field) (hf : f ∈ fields) (hk : droppedField excl f = false) :
    f.dbName ∈ mapKeys (extractAttrs fields excl now) := by
  show f.dbName ∈ mapKeys (fields.foldl (extractStep excl now) [])
  suffices h : ∀ acc : List (String × Value),
      f.dbName ∈ mapKeys (fields.foldl (extractStep excl now) acc) from h []
  induction fields with
  | nil => cases hf
  | cons g gs ih =>
    intro acc
    rw [List.foldl_cons]
    rcases List.mem_cons.mp hf with heq | hmem
    · subst heq
      apply extractFold_keys_mono
      rw [extractStep_kept excl now acc f hk]
      exact mem_mapKeys_mapInsert_self acc f.dbName _
    · exact ih hmem _

theorem extractAttrs_keys_from_fields (fields : List Field) (excl : List String) (now : Value) :
    ∀ acc : List (String × Value), ∀ j,
      j ∈ mapKeys (fields.foldl (extractStep excl now) acc) →
      j ∈ mapKeys acc ∨ ∃ f ∈ fields, droppedField excl f = false ∧ f.dbName = j := by
  induction fields with
  | nil => intro acc j h; exact Or.inl h
  | cons f fs ih =>
    intro acc j h
    rw [List.foldl_cons] at h
    rcases ih _ j h with h2 | h2
    · by_cases hf : droppedField excl f = true
      · rw [extractStep_dropped excl now acc f hf] at h2
        exact Or.inl h2
      · have hf2 : droppedField excl f = false := by
          revert hf; cases droppedField excl f <;> simp
        rw [extractStep_kept excl now acc f hf2] at h2
        rcases mem_mapKeys_mapInsert_elim acc f.dbName j _ h2 with h3 | h3
        · exact Or.inl h3
        · exact Or.inr ⟨f, List.mem_cons_self f fs, hf2, h3.symm⟩
    · rcases h2 with ⟨g, hg, hgk, hgn⟩
      exact Or.inr ⟨g, List.mem_cons_of_mem f hg, hgk, hgn⟩

theorem extractMapValue_ok_nodup (excl : List String) (now : Value) (o : GoValue)
    (m : List (String × Value)) (h : extractMapValue o excl now = Except.ok m) :
    (mapKeys m).Nodup := by
  cases o with
  | nonStruct => exact absurd h (by simp [extractMapValue])
  | struct r =>
    have hm : m = extractAttrs r.fields excl now := by
      simpa [extractMapValue] using h.symm
    rw [hm]
    exact extractAttrs_keys_nodup r.fields excl now

theorem extractedAttrs_of_ok (excl : List String) (now : Value) (o : GoValue)
    (m : List (String × Value)) (h : extractMapValue o excl now = Except.ok m) :
    extractedAttrs excl now o = m := by
  simp [extractedAttrs, h]

theorem extractedRow_length (excl : List String) (now : Value) (o : GoValue)
    (m : List (String × Value)) (h : extractMapValue o excl now = Except.ok m) :
    (extractedRow excl now o).length = m.length := by
  simp [extractedRow, extractedAttrs_of_ok excl now o m h, List.length_map, sortedKeys_length]

theorem buildRows_ok (excl : List String) (now : Value) (c : Nat) :
    ∀ objs : List GoValue,
      (∀ o ∈ objs, ∃ m, extractMapValue o excl now = Except.ok m ∧ m.length = c) →
      buildRows excl now c objs =
        Except.ok (List.replicate objs.length (placeholderGroup c),
          (objs.map (extractedRow excl now)).flatten) := by
  intro objs
  induction objs with
  | nil => intro _; rfl
  | cons o os ih =>
    intro h
    rcases h o (List.mem_cons_self o os) with ⟨m, hm, hlen⟩
    have hrest := ih (fun x hx => h x (List.mem_cons_of_mem o hx))
    have hph : ("(" ++ String.intercalate ", "
        ((sortedKeys m).map fun _ => "?") ++ ")") = placeholderGroup c := by
      rw [List.map_const', sortedKeys_length, hlen, placeholderGroup]
    simp only [buildRows, hm, hlen, ne_eq, not_true_eq_false, reduceIte, hrest, List.length_cons,
      List.map_cons, List.flatten_cons, List.replicate_succ]
    rw [hph]
    simp [extractedRow, extractedAttrs_of_ok excl now o m hm]

theorem rows_flatten_length (excl : List String) (now : Value) (c : Nat) :
    ∀ objs : List GoValue,
      (∀ o ∈ objs, (extractedRow excl now o).length = c) →
      ((objs.map (extractedRow excl now)).flatten).length = objs.length * c := by
  intro objs
  induction objs with
  | nil => intro _; simp
  | cons o os ih =>
    intro h
    have h0 := h o (List.mem_cons_self o os)
    have hrest := ih (fun x hx => h x (List.mem_cons_of_mem o hx))
    simp [List.flatten_cons, h0, hrest, Nat.succ_mul, Nat.add_comm]

theorem insertObjSet_ok (toCol : String → String) (qtn : String) (replace : Bool)
    (excl : List String) (now : Value) (first : GoValue) (rest : List GoValue)
    (c : Nat) (m1 : List (String × Value))
    (h1 : extractMapValue first excl now = Except.ok m1) (hlen1 : m1.length = c)
    (hok : ∀ o ∈ rest, ∃ m, extractMapValue o excl now = Except.ok m ∧ m.length = c) :
    insertObjSet toCol qtn (first :: rest) replace excl now =
      Except.ok (some (
        (if replace then "REPLACE" else "INSERT") ++ " INTO " ++ qtn ++ " (" ++
          String.intercalate ", " ((sortedKeys m1).map toCol) ++ ") VALUES " ++
          String.intercalate ", " (List.replicate (rest.length + 1) (placeholderGroup c)),
        ((first :: rest).map (extractedRow excl now)).flatten)) := by
  have hall : ∀ o ∈ first :: rest, ∃ m, extractMapValue o excl now = Except.ok m ∧ m.length = c := by
    intro o ho
    rcases List.mem_cons.mp ho with he | hmem
    · exact ⟨m1, he ▸ h1, hlen1⟩
    · exact hok o hmem
  have hb := buildRows_ok excl now c (first :: rest) hall
  simp only [insertObjSet, h1, hlen1, hb, List.length_cons]

theorem extractedRow_shared_order (excl : List String) (now : Value) (o : GoValue)
    (m m1 : List (String × Value)) (h : extractMapValue o excl now = Except.ok m)
    (h1 : (mapKeys m1).Nodup) (hkeys : ∀ k, k ∈ mapKeys m ↔ k ∈ mapKeys m1) :
    extractedRow excl now o = (sortedKeys m1).map (mapLookup m) := by
  rw [extractedRow, extractedAttrs_of_ok excl now o m h,
    sortedKeys_eq_of_same_keys m m1 (extractMapValue_ok_nodup excl now o m h) h1 hkeys]

theorem buildRows_inconsistent (excl : List String) (now : Value) (attrSize : Nat) :
    ∀ objs : List GoValue,
      (∀ o ∈ objs, ∃ m, extractMapValue o excl now = Except.ok m) →
      (∃ o ∈ objs, (extractedAttrs excl now o).length ≠ attrSize) →
      buildRows excl now attrSize objs = Except.error "attribute sizes are inconsistent" := by
  intro objs
  induction objs with
  | nil => rintro _ ⟨o, ho, _⟩; cases ho
  | cons o os ih =>
    rintro hall ⟨w, hw, hwlen⟩
    rcases hall o (List.mem_cons_self o os) with ⟨m, hm⟩
    by_cases hsz : m.length = attrSize
    · have hrest : ∃ x ∈ os, (extractedAttrs excl now x).length ≠ attrSize := by
        rcases List.mem_cons.mp hw with he | hmem
        · subst he
          rw [extractedAttrs_of_ok excl now w m hm] at hwlen
          exact absurd hsz hwlen
        · exact ⟨w, hmem, hwlen⟩
      have := ih (fun x hx => hall x (List.mem_cons_of_mem o hx)) hrest
      simp only [buildRows, hm, hsz, ne_eq, not_true_eq_false, reduceIte, this]
    · simp only [buildRows, hm, hsz, ne_eq, not_false_eq_true, reduceIte]

theorem insertObjSet_inconsistent (toCol : String → String) (qtn : String) (replace : Bool)
    (excl : List String) (now : Value) (first : GoValue) (rest : List GoValue)
    (hall : ∀ o ∈ first :: rest, ∃ m, extractMapValue o excl now = Except.ok m)
    (hbad : ∃ o ∈ first :: rest,
      (extractedAttrs excl now o).length ≠ (extractedAttrs excl now first).length) :
    insertObjSet toCol qtn (first :: rest) replace excl now =
      Except.error "attribute sizes are inconsistent" := by
  rcases hall first (List.mem_cons_self first rest) with ⟨m1, h1⟩
  have hlen : (extractedAttrs excl now first).length = m1.length := by
    rw [extractedAttrs_of_ok excl now first m1 h1]
  have hb := buildRows_inconsistent excl now m1.length (first :: rest) hall
    (by rcases hbad with ⟨o, ho, hne⟩; exact ⟨o, ho, by rw [← hlen]; exact hne⟩)
  simp only [insertObjSet, h1, hb]

theorem runBulk_cons_error (toCol : String → String) (qtn : String)
    (exec : String → List Value → Option String) (replace : Bool)
    (excl : List String) (now : Value) (c : List GoValue) (cs : List (List GoValue))
    (e : String) (hins : insertObjSet toCol qtn c replace excl now = Except.error e) :
    runBulk toCol qtn exec replace excl now (c :: cs) = ([], some e) := by
  simp [runBulk, hins]

theorem runBulk_cons_none (toCol : String → String) (qtn : String)
    (exec : String → List Value → Option String) (replace : Bool)
    (excl : List String) (now : Value) (c : List GoValue) (cs : List (List GoValue))
    (hins : insertObjSet toCol qtn c replace excl now = Except.ok none) :
    runBulk toCol qtn exec replace excl now (c :: cs) =
      runBulk toCol qtn exec replace excl now cs := by
  simp [runBulk, hins]

theorem runBulk_cons_some_err (toCol : String → String) (qtn : String)
    (exec : String → List Value → Option String) (replace : Bool)
    (excl : List String) (now : Value) (c : List GoValue) (cs : List (List GoValue))
    (stmt : String × List Value) (e : String)
    (hins : insertObjSet toCol qtn c replace excl now = Except.ok (some stmt))
    (hex : exec stmt.1 stmt.2 = some e) :
    runBulk toCol qtn exec replace excl now (c :: cs) = ([stmt], some e) := by
  simp [runBulk, hins, hex]

theorem runBulk_cons_some_ok (toCol : String → String) (qtn : String)
    (exec : String → List Value → Option String) (replace : Bool)
    (excl : List String) (now : Value) (c : List GoValue) (cs : List (List GoValue))
    (stmt : String × List Value)
    (hins : insertObjSet toCol qtn c replace excl now = Except.ok (some stmt))
    (hex : exec stmt.1 stmt.2 = none) :
    runBulk toCol qtn exec replace excl now (c :: cs) =
      (stmt :: (runBulk toCol qtn exec replace excl now cs).1,
        (runBulk toCol qtn exec replace excl now cs).2) := by
  simp [runBulk, hins, hex]

theorem runBulk_stop (toCol : String → String) (qtn : String)
    (exec : String → List Value → Option String) (replace : Bool)
    (excl : List String) (now : Value) (e : String) :
    ∀ chunks1 chunks2 : List (List GoValue),
      (runBulk toCol qtn exec replace excl now chunks1).2 = some e →
      runBulk toCol qtn exec replace excl now (chunks1 ++ chunks2) =
        runBulk toCol qtn exec replace excl now chunks1 := by
  intro chunks1
  induction chunks1 with
  | nil => intro chunks2 h; exact absurd h (by simp [runBulk])
  | cons c cs ih =>
    intro chunks2 h
    rw [List.cons_append]
    cases hins : insertObjSet toCol qtn c replace excl now with
    | error e2 =>
      rw [runBulk_cons_error toCol qtn exec replace excl now c (cs ++ chunks2) e2 hins,
        runBulk_cons_error toCol qtn exec replace excl now c cs e2 hins]
    | ok s =>
      cases s with
      | none =>
        rw [runBulk_cons_none toCol qtn exec replace excl now c cs hins] at h
        rw [runBulk_cons_none toCol qtn exec replace excl now c (cs ++ chunks2) hins,
          runBulk_cons_none toCol qtn exec replace excl now c cs hins, ih chunks2 h]
      | some stmt =>
        cases hex : exec stmt.1 stmt.2 with
        | some e2 =>
          rw [runBulk_cons_some_err toCol qtn exec replace excl now c (cs ++ chunks2) stmt e2
              hins hex,
            runBulk_cons_some_err toCol qtn exec replace excl now c cs stmt e2 hins hex]
        | none =>
          rw [runBulk_cons_some_ok toCol qtn exec replace excl now c cs stmt hins hex] at h
          simp only at h
          rw [runBulk_cons_some_ok toCol qtn exec replace excl now c (cs ++ chunks2) stmt
              hins hex,
            runBulk_cons_some_ok toCol qtn exec replace excl now c cs stmt hins hex,
            ih chunks2 h]

theorem runBulk_execs (toCol : String → String) (qtn : String) (replace : Bool)
    (excl : List String) (now : Value) :
    ∀ chunks : List (List GoValue),
      (∀ c ∈ chunks, ∃ s, insertObjSet toCol qtn c replace excl now = Except.ok s) →
      ((runBulk toCol qtn (fun _ _ => none) replace excl now chunks).1).length =
        chunks.countP (fun c => !c.isEmpty) := by
  intro chunks
  induction chunks with
  | nil => intro _; rfl
  | cons c cs ih =>
    intro h
    rcases h c (List.mem_cons_self c cs) with ⟨s, hs⟩
    have hrest := ih (fun x hx => h x (List.mem_cons_of_mem c hx))
    cases s with
    | none =>
      have hc : c = [] := by
        cases c with
        | nil => rfl
        | cons o os =>
          exfalso
          revert hs
          simp only [insertObjSet]
          cases extractMapValue o excl now with
          | error e => simp
          | ok m =>
            simp only
            cases buildRows excl now m.length (o :: os) with
            | error e => simp
            | ok pr => simp
      subst hc
      simp only [runBulk, hs, List.countP_cons, List.isEmpty_nil]
      simpa using hrest
    | some stmt =>
      have hc : ¬c.isEmpty := by
        cases c with
        | nil => exact absurd hs (by simp [insertObjSet])
        | cons o os => simp
      simp only [runBulk, hs, List.countP_cons]
      simp only [List.length_cons, hrest]
      rw [if_pos (by simpa using hc)]

theorem splitChunks_flatten {α : Type} (size : Nat) :
    ∀ (xs : List α) (cap : Nat) (cur : List α),
      (splitChunks size xs cap cur).flatten = cur.reverse ++ xs
  | [], cap, cur => by
    by_cases h : cur.isEmpty
    · simp [splitChunks, h, List.isEmpty_iff.mp h]
    · simp [splitChunks, h]
  | x :: xs, cap, cur => by
    by_cases h : cap ≤ 1
    · simp only [splitChunks, h, if_true, List.flatten_cons]
      rw [splitChunks_flatten size xs size []]
      simp
    · simp only [splitChunks, h, if_false]
      rw [splitChunks_flatten size xs (cap - 1) (x :: cur)]
      simp

theorem splitObjects_flatten {α : Type} (l : List α) (n : Nat) :
    (splitObjects l n).flatten = l := by
  cases n with
  | zero => cases l <;> simp [splitObjects]
  | succ k =>
    show (splitChunks (Nat.succ k) l (Nat.succ k) []).flatten = l
    rw [splitChunks_flatten]
    simp

theorem splitChunks_bounds {α : Type} (size : Nat) :
    ∀ (xs : List α) (cap : Nat) (cur : List α),
      cap ≤ size → 0 < cap → cur.length + cap ≤ size →
      ∀ c ∈ splitChunks size xs cap cur, c.length ≤ size ∧ c ≠ []
  | [], cap, cur => by
    intro h1 h2 h3 c hc
    by_cases h : cur.isEmpty
    · simp [splitChunks, h] at hc
    · simp only [splitChunks, h, Bool.false_eq_true, if_false, List.mem_singleton] at hc
      subst hc
      refine ⟨by simp; omega, ?_⟩
      simp only [ne_eq, List.reverse_eq_nil_iff]
      intro hcur
      rw [hcur] at h
      exact h rfl
  | x :: xs, cap, cur => by
    intro h1 h2 h3 c hc
    by_cases h : cap ≤ 1
    · simp only [splitChunks, h, if_true, List.mem_cons] at hc
      rcases hc with he | hmem
      · subst he
        refine ⟨by simp; omega, by simp⟩
      · exact splitChunks_bounds size xs size [] (Nat.le_refl size) (by omega)
          (by simp) c hmem
    · simp only [splitChunks, h, if_false] at hc
      exact splitChunks_bounds size xs (cap - 1) (x :: cur) (by omega) (by omega)
        (by simp; omega) c hc

theorem splitObjects_bounds {α : Type} (l : List α) (n : Nat) (hn : 0 < n) :
    ∀ c ∈ splitObjects l n, c.length ≤ n ∧ c ≠ [] := by
  cases n with
  | zero => exact absurd hn (by omega)
  | succ k =>
    intro c hc
    exact splitChunks_bounds (Nat.succ k) l (Nat.succ k) [] (Nat.le_refl _) (Nat.succ_pos k)
      (by simp) c hc

theorem droppedField_shape_eq (excl : List String) (f g : Field) (h : FieldShapeEq f g) :
    droppedField excl f = droppedField excl g := by
  rcases h with ⟨h1, h2, h3, h4, h5, h6⟩
  simp [droppedField, h1, h2, h3, h4, h5, h6]

theorem mapKeys_mapInsert_congr (acc1 acc2 : List (String × Value)) (k : String)
    (v1 v2 : Value) (h : mapKeys acc1 = mapKeys acc2) :
    mapKeys (mapInsert acc1 k v1) = mapKeys (mapInsert acc2 k v2) := by
  rw [mapKeys_mapInsert, mapKeys_mapInsert, h]

theorem keys_fold_eq (now1 now2 : Value) :
    ∀ l1 l2 : List Field, List.Forall₂ (fun f g => f.dbName = g.dbName) l1 l2 →
      ∀ acc1 acc2 : List (String × Value), mapKeys acc1 = mapKeys acc2 →
      mapKeys (l1.foldl (fun a f => mapInsert a f.dbName (fieldValue now1 f)) acc1) =
        mapKeys (l2.foldl (fun a g => mapInsert a g.dbName (fieldValue now2 g)) acc2) := by
  intro l1 l2 h
  induction h with
  | nil => intro acc1 acc2 hacc; exact hacc
  | @cons f g fs gs hfg htl ih =>
    intro acc1 acc2 hacc
    rw [List.foldl_cons, List.foldl_cons]
    apply ih
    rw [← hfg]
    exact mapKeys_mapInsert_congr acc1 acc2 f.dbName _ _ hacc

theorem filter_shape (excl : List String) :
    ∀ l1 l2 : List Field, List.Forall₂ FieldShapeEq l1 l2 →
      List.Forall₂ FieldShapeEq (l1.filter fun f => !droppedField excl f)
        (l2.filter fun f => !droppedField excl f) := by
  intro l1 l2 h
  induction h with
  | nil => exact List.Forall₂.nil
  | @cons f g fs gs hfg htl ih =>
    rw [List.filter_cons, List.filter_cons, droppedField_shape_eq excl f g hfg]
    by_cases hd : (!droppedField excl g) = true
    · rw [if_pos hd, if_pos hd]
      exact List.Forall₂.cons hfg ih
    · rw [if_neg hd, if_neg hd]
      exact ih

theorem extractAttrs_keys_shape (excl : List String) (now1 now2 : Value)
    (fs1 fs2 : List Field) (h : List.Forall₂ FieldShapeEq fs1 fs2) :
    mapKeys (extractAttrs fs1 excl now1) = mapKeys (extractAttrs fs2 excl now2) := by
  rw [extractAttrs_filter, extractAttrs_filter]
  refine keys_fold_eq now1 now2 _ _ ?_ [] [] rfl
  exact (filter_shape excl fs1 fs2 h).imp (fun a b hab => hab.2.1)

theorem extractAttrs_length_shape (excl : List String) (now1 now2 : Value)
    (fs1 fs2 : List Field) (h : List.Forall₂ FieldShapeEq fs1 fs2) :
    (extractAttrs fs1 excl now1).length = (extractAttrs fs2 excl now2).length := by
  have hk := congrArg List.length (extractAttrs_keys_shape excl now1 now2 fs1 fs2 h)
  simpa [mapKeys] using hk

theorem sortedKeys_shape (excl : List String) (now1 now2 : Value)
    (fs1 fs2 : List Field) (h : List.Forall₂ FieldShapeEq fs1 fs2) :
    sortedKeys (extractAttrs fs1 excl now1) = sortedKeys (extractAttrs fs2 excl now2) :=
  congrArg (List.insertionSort strLeP) (extractAttrs_keys_shape excl now1 now2 fs1 fs2 h)

/-- C6 (amended): releasing an uncommitted guard via `End` issues a rollback to
the session on that call, and `End` after a successful `Commit` issues no
rollback; in particular the first `End` of a fresh uncommitted guard issues
exactly one rollback.  However, `End` rolls back on every call while the guard
is uncommitted, so a second `End` issues a second rollback call to the session
rather than being a no-op of this layer (the counterexample below); only the
underlying session treats the repeat as spent. -/
theorem claim_C6 (tx : TX) (e : Option String) (np : List Bool) :
    (tx.committed = false → tx.End = { tx with rollbacks := tx.rollbacks + 1 }) ∧
    (tx.committed = true → tx.End = tx) ∧
    (TX.End (beginTX e)).rollbacks = 1 ∧
    (tx.dbError = none → ((tx.Commit np).1).End = (tx.Commit np).1) := by
  refine ⟨?_, ?_, ?_, ?_⟩
  · intro h; simp [TX.End, h]
  · intro h; simp [TX.End, h]
  · simp [TX.End, beginTX]
  · intro h; simp [TX.Commit, h, TX.End]

/-- C6 witness: the amended statement at a fresh guard with a clean session. -/
theorem claim_C6_witness :
    (beginTX none).End =
      { beginTX none with rollbacks := (beginTX none).rollbacks + 1 } ∧
    (((beginTX none).Commit []).1).End = ((beginTX none).Commit []).1 := by
  have h := claim_C6 (beginTX none) none []
  exact ⟨h.1 rfl, h.2.2.2 rfl⟩

/-- C6 counterexample: on a fresh uncommitted guard, a second `End` is not a
no-op — it issues a second rollback call, so the guard's state changes again. -/
theorem claim_C6_counterexample :
    TX.End (TX.End (beginTX none)) ≠ TX.End (beginTX none) ∧
    (TX.End (TX.End (beginTX none))).rollbacks = 2 := by
  decide

/-- C7: `Commit` with `noPanic = true` on a session whose terminal error field
is set returns that error as a value (no panic), leaves the guard uncommitted
(so a subsequent `End` rolls it back), and on a session with no error `Commit`
marks the guard committed and returns nil. -/
theorem claim_C7 (tx : TX) (e : String) (np : List Bool) :
    (tx.dbError = some e → tx.committed = false →
      tx.Commit [true] = (tx, CommitOutcome.err e) ∧
      ((tx.Commit [true]).1).committed = false ∧
      ((tx.Commit [true]).1).End.rollbacks = tx.rollbacks + 1) ∧
    (tx.dbError = none → tx.Commit np = ({ tx with committed := true }, CommitOutcome.ok)) := by
  constructor
  · intro he hc
    refine ⟨?_, ?_, ?_⟩ <;> simp [TX.Commit, he, hc, TX.End]
  · intro he
    simp [TX.Commit, he]

/-- C7 witness: a guard carrying a session error returns it from
`Commit(noPanic = true)`; a clean guard commits. -/
theorem claim_C7_witness :
    (beginTX (some "tx error")).Commit [true] =
      (beginTX (some "tx error"), CommitOutcome.err "tx error") ∧
    (beginTX none).Commit [] =
      ({ beginTX none with committed := true }, CommitOutcome.ok) := by
  refine ⟨((claim_C7 (beginTX (some "tx error")) "tx error" []).1 rfl rfl).1, ?_⟩
  exact (claim_C7 (beginTX none) "tx error" []).2 rfl

/-- C8 (amended): in the pre-create hook, for a record whose table name does
not end with the soft-delete suffix, a fresh identifier is assigned to the
primary-key column if and only if the record declares a primary-key field
WHOSE NAME OR DB COLUMN NAME IS "ID" and that field is currently blank (the
name condition is what the claim omitted); a record with no primary field, a
non-blank primary field, or a primary field not named `ID` is left unchanged. -/
theorem claim_C8 (freshId : String) (now : Value) (scope : CreateScope)
    (hd : scope.tableName.endsWith "deleted" = false) :
    (∀ pf, scope.primaryField = some pf → pf.isBlank = false →
      beforeCreateCallback freshId now scope = scope) ∧
    (scope.primaryField = none → beforeCreateCallback freshId now scope = scope) ∧
    (∀ pf, scope.primaryField = some pf → (pf.name = "ID" ∨ pf.dbName = "ID") →
      pf.isBlank = true →
      beforeCreateCallback freshId now scope = scope.setColumn "ID" (Value.str freshId)) ∧
    (∀ pf, scope.primaryField = some pf → pf.name ≠ "ID" → pf.dbName ≠ "ID" →
      beforeCreateCallback freshId now scope = scope) := by
  refine ⟨?_, ?_, ?_, ?_⟩
  · intro pf hpf hb
    simp [beforeCreateCallback, hd, hpf, hb]
  · intro hpf
    simp [beforeCreateCallback, hd, hpf]
  · intro pf hpf hname hb
    rcases hname with hname | hname <;> simp [beforeCreateCallback, hd, hpf, hname, hb]
  · intro pf hpf h1 h2
    simp [beforeCreateCallback, hd, hpf, h1, h2]

/-- C8 witness: a blank `ID` primary key receives the fresh identifier; a
non-blank one is untouched. -/
theorem claim_C8_witness :
    beforeCreateCallback "fresh01" Value.nil idPkScope =
      idPkScope.setColumn "ID" (Value.str "fresh01") ∧
    beforeCreateCallback "fresh01" Value.nil presetPkScope = presetPkScope := by
  constructor
  · exact (claim_C8 "fresh01" Value.nil idPkScope (by decide)).2.2.1 _ rfl (Or.inl rfl) rfl
  · exact (claim_C8 "fresh01" Value.nil presetPkScope (by decide)).1 _ rfl rfl

/-- C8 counterexample: a record on a live table declaring a blank primary-key
field (named `Code`, column `code`): the claim as stated requires an
identifier assignment, but the hook leaves the scope unchanged because the
field is not named `ID`. -/
theorem claim_C8_counterexample :
    nonIdPkScope.tableName.endsWith "deleted" = false ∧
    (∃ pf, nonIdPkScope.primaryField = some pf ∧ pf.isBlank = true) ∧
    beforeCreateCallback "fresh01" Value.nil nonIdPkScope = nonIdPkScope ∧
    nonIdPkScope.setColumn "ID" (Value.str "fresh01") ≠ nonIdPkScope := by
  refine ⟨rfl, ⟨_, rfl, rfl⟩, by decide, by decide⟩

/-- C10: the per-chunk consistency check compares only mapping sizes, not key
sets: two records with equal-size but different key sets raise no error; the
column list (`a, b`) comes from the first record alone, and the second
record's values are bound in its own sorted-key order (`a, c`), so its `c`
value lands under column `b`. -/
theorem claim_C10 :
    (extractedAttrs [] Value.nil (sampleRecord [("a", 1), ("b", 2)])).length =
      (extractedAttrs [] Value.nil (sampleRecord [("a", 3), ("c", 4)])).length ∧
    mapKeys (extractedAttrs [] Value.nil (sampleRecord [("a", 1), ("b", 2)])) ≠
      mapKeys (extractedAttrs [] Value.nil (sampleRecord [("a", 3), ("c", 4)])) ∧
    insertObjSet id "user"
        [sampleRecord [("a", 1), ("b", 2)], sampleRecord [("a", 3), ("c", 4)]]
        false [] Value.nil =
      Except.ok (some ("INSERT INTO user (a, b) VALUES (?, ?), (?, ?)",
        [Value.int 1, Value.int 2, Value.int 3, Value.int 4])) := by
  decide

/-- C4: a chunk in which some record's extracted mapping size differs from the
first record's makes `insertObjSet` return the error "attribute sizes are
inconsistent", and running that chunk through the chunk loop executes no SQL
statement. -/
theorem claim_C4 (toCol : String → String) (qtn : String)
    (exec : String → List Value → Option String) (replace : Bool)
    (excl : List String) (now : Value) (first : GoValue) (rest : List GoValue)
    (hall : ∀ o ∈ first :: rest, ∃ m, extractMapValue o excl now = Except.ok m)
    (hbad : ∃ o ∈ first :: rest,
      (extractedAttrs excl now o).length ≠ (extractedAttrs excl now first).length) :
    insertObjSet toCol qtn (first :: rest) replace excl now =
      Except.error "attribute sizes are inconsistent" ∧
    runBulk toCol qtn exec replace excl now [first :: rest] =
      ([], some "attribute sizes are inconsistent") := by
  have h := insertObjSet_inconsistent toCol qtn replace excl now first rest hall hbad
  exact ⟨h, runBulk_cons_error toCol qtn exec replace excl now (first :: rest) [] _ h⟩

/-- C4 witness: a two-column record chunked with a one-column record. -/
theorem claim_C4_witness :
    insertObjSet id "user"
        [sampleRecord [("a", 1), ("b", 2)], sampleRecord [("a", 3)]] false [] Value.nil =
      Except.error "attribute sizes are inconsistent" ∧
    runBulk id "user" (fun _ _ => none) false [] Value.nil
        [[sampleRecord [("a", 1), ("b", 2)], sampleRecord [("a", 3)]]] =
      ([], some "attribute sizes are inconsistent") := by
  refine claim_C4 id "user" (fun _ _ => none) false [] Value.nil
    (sampleRecord [("a", 1), ("b", 2)]) [sampleRecord [("a", 3)]] ?_ ?_
  · intro o ho
    rcases List.mem_cons.mp ho with he | hmem
    · exact ⟨[("a", Value.int 1), ("b", Value.int 2)], by rw [he]; decide⟩
    · simp only [List.mem_singleton] at hmem
      exact ⟨[("a", Value.int 3)], by rw [hmem]; decide⟩
  · exact ⟨sampleRecord [("a", 3)], by simp, by decide⟩

/-- C5: for a positive chunk size, the chunking helper partitions the input
into contiguous chunks of size at most `chunkSize` that flatten back to the
input in order (no record dropped or duplicated), every produced chunk is
non-empty, the chunk loop performs one execution per non-empty chunk, and the
concrete scenario holds: 5 records with chunkSize 2 yield 3 execution calls
with batch sizes [2, 2, 1]. -/
theorem claim_C5 (l : List GoValue) (n : Nat) (hn : 0 < n) :
    (splitObjects l n).flatten = l ∧
    (∀ c ∈ splitObjects l n, c.length ≤ n ∧ c ≠ []) ∧
    (∀ (toCol : String → String) (qtn : String) (replace : Bool)
      (excl : List String) (now : Value) (chunks : List (List GoValue)),
      (∀ c ∈ chunks, ∃ s, insertObjSet toCol qtn c replace excl now = Except.ok s) →
      ((runBulk toCol qtn (fun _ _ => none) replace excl now chunks).1).length =
        chunks.countP (fun c => !c.isEmpty)) ∧
    (splitObjects fiveRecords 2).map List.length = [2, 2, 1] ∧
    (BulkInsert id "user" (fun _ _ => none) (GoInput.slice fiveRecords) 2 false []
      Value.nil).1.map (fun s => s.2.length) = [2, 2, 1] := by
  refine ⟨splitObjects_flatten l n, splitObjects_bounds l n hn, ?_, by decide, by decide⟩
  intro toCol qtn replace excl now chunks h
  exact runBulk_execs toCol qtn replace excl now chunks h

/-- C5 witness: the five-record scenario with chunk size 2. -/
theorem claim_C5_witness :
    (splitObjects fiveRecords 2).flatten = fiveRecords ∧
    (BulkInsert id "user" (fun _ _ => none) (GoInput.slice fiveRecords) 2 false []
      Value.nil).1.map (fun s => s.2.length) = [2, 2, 1] := by
  have h := claim_C5 fiveRecords 2 (by decide)
  exact ⟨h.1, h.2.2.2.2⟩

/-- C9: within one `BulkInsert` call chunks run strictly in input order and
processing stops at the first chunk whose extraction, consistency check or
execution errors — appending further chunks after an erroring prefix changes
nothing, so no later chunk is extracted or executed; and an empty input slice
yields no execution and a nil error for every chunk size. -/
theorem claim_C9 (toCol : String → String) (qtn : String)
    (exec : String → List Value → Option String) (replace : Bool)
    (excl : List String) (now : Value) :
    (∀ (chunks1 chunks2 : List (List GoValue)) (e : String),
      (runBulk toCol qtn exec replace excl now chunks1).2 = some e →
      runBulk toCol qtn exec replace excl now (chunks1 ++ chunks2) =
        runBulk toCol qtn exec replace excl now chunks1) ∧
    (∀ n : Nat, BulkInsert toCol qtn exec (GoInput.slice []) n replace excl now = ([], none)) := by
  constructor
  · intro c1 c2 e h
    exact runBulk_stop toCol qtn exec replace excl now e c1 c2 h
  · intro n
    cases n <;> rfl

/-- C9 witness: an erroring first chunk (a non-struct record) makes the
appended well-formed chunk unreachable; the empty slice executes nothing. -/
theorem claim_C9_witness :
    runBulk id "user" (fun _ _ => none) false [] Value.nil
        ([[GoValue.nonStruct]] ++ [[sampleRecord [("a", 1)]]]) =
      runBulk id "user" (fun _ _ => none) false [] Value.nil [[GoValue.nonStruct]] ∧
    BulkInsert id "user" (fun _ _ => none) (GoInput.slice []) 3 false [] Value.nil =
      ([], none) := by
  have h := claim_C9 id "user" (fun _ _ => none) false [] Value.nil
  exact ⟨h.1 [[GoValue.nonStruct]] [[sampleRecord [("a", 1)]]]
    "value must be kind of Struct" (by decide), h.2 3⟩

/-- C1: for a non-empty batch whose extracted mappings all have size `c`, the
statement built by `insertObjSet` is `ok`: its SQL text ends in exactly
`N = rest.length + 1` placeholder groups, each group being the `c`-fold
`(?, ..., ?)`, the flat parameter list is the concatenation of the per-row
value lists and has length `N × c`, and — when all mappings share the first
mapping's key set — every row is emitted in that shared sorted-key order. -/
theorem claim_C1 (toCol : String → String) (qtn : String) (replace : Bool)
    (excl : List String) (now : Value) (first : GoValue) (rest : List GoValue)
    (c : Nat) (m1 : List (String × Value))
    (h1 : extractMapValue first excl now = Except.ok m1) (hlen1 : m1.length = c)
    (hok : ∀ o ∈ rest, ∃ m, extractMapValue o excl now = Except.ok m ∧ m.length = c) :
    insertObjSet toCol qtn (first :: rest) replace excl now =
      Except.ok (some (
        (if replace then "REPLACE" else "INSERT") ++ " INTO " ++ qtn ++ " (" ++
          String.intercalate ", " ((sortedKeys m1).map toCol) ++ ") VALUES " ++
          String.intercalate ", " (List.replicate (rest.length + 1) (placeholderGroup c)),
        ((first :: rest).map (extractedRow excl now)).flatten)) ∧
    ((first :: rest).map (extractedRow excl now)).flatten.length = (rest.length + 1) * c ∧
    ((∀ o ∈ rest, ∀ m, extractMapValue o excl now = Except.ok m →
        ∀ k, k ∈ mapKeys m ↔ k ∈ mapKeys m1) →
      (first :: rest).map (extractedRow excl now) =
        (first :: rest).map (fun o => (sortedKeys m1).map
          (mapLookup (extractedAttrs excl now o)))) := by
  refine ⟨insertObjSet_ok toCol qtn replace excl now first rest c m1 h1 hlen1 hok, ?_, ?_⟩
  · apply rows_flatten_length excl now c (first :: rest)
    intro o ho
    rcases List.mem_cons.mp ho with he | hmem
    · rw [he]
      exact (extractedRow_length excl now first m1 h1).trans hlen1
    · rcases hok o hmem with ⟨m, hm, hlen⟩
      exact (extractedRow_length excl now o m hm).trans hlen
  · intro hkeys
    apply List.map_congr_left
    intro o ho
    have h1nodup := extractMapValue_ok_nodup excl now first m1 h1
    rcases List.mem_cons.mp ho with he | hmem
    · subst he
      rw [extractedRow_shared_order excl now o m1 m1 h1 h1nodup (fun k => Iff.rfl),
        extractedAttrs_of_ok excl now o m1 h1]
    · rcases hok o hmem with ⟨m, hm, _⟩
      rw [extractedRow_shared_order excl now o m m1 hm h1nodup (hkeys o hmem m hm),
        extractedAttrs_of_ok excl now o m hm]

/-- C1 witness: a batch of two two-column records yields two groups of two
placeholders and four parameters in sorted-key order. -/
theorem claim_C1_witness :
    insertObjSet id "user"
        [sampleRecord [("b", 2), ("a", 1)], sampleRecord [("b", 4), ("a", 3)]]
        false [] Value.nil =
      Except.ok (some ("INSERT INTO user (a, b) VALUES (?, ?), (?, ?)",
        [Value.int 1, Value.int 2, Value.int 3, Value.int 4])) := by
  have hok : ∀ o ∈ [sampleRecord [("b", 4), ("a", 3)]],
      ∃ m, extractMapValue o [] Value.nil = Except.ok m ∧ m.length = 2 := by
    intro o ho
    simp only [List.mem_singleton] at ho
    subst ho
    exact ⟨[("b", Value.int 4), ("a", Value.int 3)], by decide, by decide⟩
  have h := claim_C1 id "user" false [] Value.nil (sampleRecord [("b", 2), ("a", 1)])
    [sampleRecord [("b", 4), ("a", 3)]] 2 [("b", Value.int 2), ("a", Value.int 1)]
    (by decide) (by decide) hok
  exact h.1.trans (by decide)

/-- C2: extraction on a struct record produces exactly the mapping built from
the fields that survive the claim's drop condition (excluded name,
relationship/foreign key, ignored, or `id` primary key) with the documented
value rules; every surviving field's column appears in the mapping, and every
key of the mapping comes from some surviving field. -/
theorem claim_C2 (r : Record) (excl : List String) (now : Value) :
    extractMapValue (GoValue.struct r) excl now =
      Except.ok ((r.fields.filter fun f => !droppedField excl f).foldl
        (fun attrs f => mapInsert attrs f.dbName (fieldValue now f)) []) ∧
    (∀ f ∈ r.fields, droppedField excl f = false →
      f.dbName ∈ mapKeys (extractedAttrs excl now (GoValue.struct r))) ∧
    (∀ k, k ∈ mapKeys (extractedAttrs excl now (GoValue.struct r)) →
      ∃ f ∈ r.fields, droppedField excl f = false ∧ f.dbName = k) := by
  have hx : extractedAttrs excl now (GoValue.struct r) = extractAttrs r.fields excl now := rfl
  refine ⟨?_, ?_, ?_⟩
  · simp only [extractMapValue, extractAttrs_filter]
  · intro f hf hk
    rw [hx]
    exact extractAttrs_mem_keys r.fields excl now f hf hk
  · intro k hk
    rw [hx] at hk
    rcases extractAttrs_keys_from_fields r.fields excl now [] k hk with h | h
    · simp [mapKeys] at h
    · exact h

/-- C2 witness: a record exercising all four drop reasons at once keeps only
the plain column, the timestamp (bound to now) and the defaulted blank
column. -/
theorem claim_C2_witness :
    extractMapValue (GoValue.struct mixedRecord) ["Skip"] (Value.time 9) =
      Except.ok [("a", Value.int 5), ("created_at", Value.time 9), ("d", Value.str "7")] ∧
    (∃ f ∈ mixedRecord.fields, droppedField ["Skip"] f = false ∧ f.dbName = "a") := by
  have h := claim_C2 mixedRecord ["Skip"] (Value.time 9)
  constructor
  · rw [h.1]
    decide
  · exact h.2.2 "a" (by decide)

/-- C3: for a homogeneous batch (all records shaped like the first), the
statement's column list is derived only from the FIRST record's mapping — its
keys sorted lexicographically and translated to column names — every row's
values are iterated in that same sorted-key order, and rebuilding for any
record of the same shape (even at another time) yields the identical column
ordering. -/
theorem claim_C3 (toCol : String → String) (qtn : String) (replace : Bool)
    (excl : List String) (now : Value) (r0 : Record) (rs : List Record)
    (hshape : ∀ r ∈ rs, List.Forall₂ FieldShapeEq r.fields r0.fields) :
    insertObjSet toCol qtn ((r0 :: rs).map GoValue.struct) replace excl now =
      Except.ok (some (
        (if replace then "REPLACE" else "INSERT") ++ " INTO " ++ qtn ++ " (" ++
          String.intercalate ", "
            ((sortedKeys (extractAttrs r0.fields excl now)).map toCol) ++ ") VALUES " ++
          String.intercalate ", " (List.replicate (rs.length + 1)
            (placeholderGroup (extractAttrs r0.fields excl now).length)),
        ((r0 :: rs).map (fun r => (sortedKeys (extractAttrs r0.fields excl now)).map
          (mapLookup (extractAttrs r.fields excl now)))).flatten)) ∧
    (∀ (r : Record) (now2 : Value), List.Forall₂ FieldShapeEq r.fields r0.fields →
      (sortedKeys (extractAttrs r.fields excl now2)).map toCol =
        (sortedKeys (extractAttrs r0.fields excl now)).map toCol) := by
  constructor
  · have hok : ∀ o ∈ rs.map GoValue.struct, ∃ m, extractMapValue o excl now = Except.ok m ∧
        m.length = (extractAttrs r0.fields excl now).length := by
      intro o ho
      rcases List.mem_map.mp ho with ⟨r, hr, rfl⟩
      exact ⟨extractAttrs r.fields excl now, rfl,
        extractAttrs_length_shape excl now now r.fields r0.fields (hshape r hr)⟩
    have h := insertObjSet_ok toCol qtn replace excl now (GoValue.struct r0)
      (rs.map GoValue.struct) (extractAttrs r0.fields excl now).length
      (extractAttrs r0.fields excl now) rfl rfl hok
    have hrows : (GoValue.struct r0 :: rs.map GoValue.struct).map (extractedRow excl now) =
        (r0 :: rs).map (fun r => (sortedKeys (extractAttrs r0.fields excl now)).map
          (mapLookup (extractAttrs r.fields excl now))) := by
      rw [List.map_cons, List.map_cons, List.map_map]
      congr 1
      apply List.map_congr_left
      intro r hr
      show extractedRow excl now (GoValue.struct r) = _
      have hs := sortedKeys_shape excl now now r.fields r0.fields (hshape r hr)
      show (sortedKeys (extractAttrs r.fields excl now)).map
        (mapLookup (extractAttrs r.fields excl now)) = _
      rw [hs]
    rw [List.map_cons]
    rw [h, hrows, List.length_map]
  · intro r now2 hsh
    exact congrArg (List.map toCol) (sortedKeys_shape excl now2 now r.fields r0.fields hsh)

/-- C3 witness: two same-shape records; the column order comes from the first
record's sorted keys, and the shape-determinism conjunct at the second
record. -/
theorem claim_C3_witness :
    insertObjSet id "team"
        ((sampleFields [("y", 2), ("x", 1)] :: [sampleFields [("y", 4), ("x", 3)]]).map
          GoValue.struct) false [] Value.nil =
      Except.ok (some ("INSERT INTO team (x, y) VALUES (?, ?), (?, ?)",
        [Value.int 1, Value.int 2, Value.int 3, Value.int 4])) ∧
    (sortedKeys (extractAttrs (sampleFields [("y", 4), ("x", 3)]).fields [] Value.nil)).map id =
      (sortedKeys (extractAttrs (sampleFields [("y", 2), ("x", 1)]).fields [] Value.nil)).map
        id := by
  have hshape : ∀ r ∈ [sampleFields [("y", 4), ("x", 3)]],
      List.Forall₂ FieldShapeEq r.fields (sampleFields [("y", 2), ("x", 1)]).fields := by
    intro r hr
    simp only [List.mem_singleton] at hr
    subst hr
    exact List.Forall₂.cons ⟨rfl, rfl, rfl, rfl, rfl, rfl⟩
      (List.Forall₂.cons ⟨rfl, rfl, rfl, rfl, rfl, rfl⟩ List.Forall₂.nil)
  have h := claim_C3 id "team" false [] Value.nil (sampleFields [("y", 2), ("x", 1)])
    [sampleFields [("y", 4), ("x", 3)]] hshape
  exact ⟨h.1.trans (by decide), h.2 (sampleFields [("y", 4), ("x", 3)]) Value.nil
    (hshape _ (List.mem_singleton.mpr rfl))⟩

end Orm
